import Mathlib

/-!
Verification of the Command/Undo-Redo unit (src/Behavioral/command.py),
the State unit (src/Behavoral/state.py) and the Memento caretaker
(src/Behavioral/memento.py) of the Gang-of-Four pattern catalogue.

Strings are embedded as `List Char`; Python slice indices in this code are
always non-negative, so indices are `Nat` and Python's slice clamping is
exactly `List.take`/`List.drop` with truncated `Nat` subtraction:
`s[a:b] = (s.drop a).take (b - a)`, `s[:a] = s.take a`, `s[a:] = s.drop a`.

Command objects in the Python script are mutable and aliased: the invoker's
two stacks hold references, and `redo` re-executes (and thereby mutates) the
very object it pops.  The embedding therefore keeps a store (arena) of
commands; the stacks are lists of store indices, mirroring Python's lists of
object references, and mutation of a command is `List.set` on the store.
-/

/-- Embeds `TextEditor.insert_text` (command.py line 11):
`self.content = self.content[:position] + text + self.content[position:]`.
Takes the current content (Python `self`) and returns the new content. -/
def TextEditor.insert_text (content text : List Char) (position : Nat) : List Char :=
  content.take position ++ text ++ content.drop position

/-- Embeds `TextEditor.delete_text` (command.py line 15): returns the pair
(deleted_text, new content) where `deleted_text = content[start:stop]` and the
new content is `content[:start] + content[stop:]` (parameter `end` in the
source is `stop` here, `end` being a Lean keyword). -/
def TextEditor.delete_text (content : List Char) (start stop : Nat) :
    List Char × List Char :=
  ((content.drop start).take (stop - start), content.take start ++ content.drop stop)

/-- The two concrete `Command` subclasses of command.py as a closed sum.
`InsertTextCommand` stores `_text` and `_position`; `DeleteTextCommand`
stores `_start`, `_end` and the mutable `_deleted_text : Optional[str]`,
initialised to `None` by `__init__`. -/
inductive Cmd where
  | insert (text : List Char) (position : Nat)
  | delete (start stop : Nat) (deletedText : Option (List Char))
deriving DecidableEq, Repr

/-- The `execute` methods of the two command classes.  Returns the command after the call
(`DeleteTextCommand.execute` overwrites `_deleted_text` with the captured
substring) together with the editor content after the call. -/
def Cmd.execute : Cmd → List Char → Cmd × List Char
  | .insert t p, content => (.insert t p, TextEditor.insert_text content t p)
  | .delete s e _, content =>
      (.delete s e (some (TextEditor.delete_text content s e).1),
       (TextEditor.delete_text content s e).2)

/-- The `undo` methods of the two command classes.  `InsertTextCommand.undo` deletes the
span `[position, position + len(text))`; `DeleteTextCommand.undo` re-inserts
`_deleted_text` at `_start` only when it is not `None` (the guard
`if self._deleted_text is not None` in the source), otherwise it does
nothing.  Neither method mutates the command, so only the content is
returned. -/
def Cmd.undo : Cmd → List Char → List Char
  | .insert t p, content => (TextEditor.delete_text content p (p + t.length)).2
  | .delete s _ d, content =>
      match d with
      | none => content
      | some t => TextEditor.insert_text content t s

/-- State of a `CommandInvoker` together with the single `TextEditor` all
commands of the script are bound to.  `store` is the arena of command
objects; `history` and `redoStack` are the Python lists `_history` and
`_redo_stack`, holding references (store indices), with the end of the list
as the top of the stack exactly as in the source (`append`/`pop`). -/
structure InvokerState where
  content : List Char
  store : List Cmd
  history : List Nat
  redoStack : List Nat
deriving DecidableEq, Repr

/-- Embeds `CommandInvoker.execute_command` (command.py line 91): runs
`command.execute()`, appends the command to `_history` and clears
`_redo_stack`.  The command is a freshly constructed object, so it is
appended to the store and its index pushed. -/
def CommandInvoker.execute_command (s : InvokerState) (cmd : Cmd) : InvokerState :=
  { content := (cmd.execute s.content).2,
    store := s.store ++ [(cmd.execute s.content).1],
    history := s.history ++ [s.store.length],
    redoStack := [] }

/-- Embeds `CommandInvoker.undo` (command.py line 100): on empty `_history` prints
"Cannot undo" and returns (modelled by the `false` flag and an unchanged
state); otherwise pops the last command, calls its `undo()` and pushes it
onto `_redo_stack`.  The inner store-miss branch can never fire for states
built through this interface (Python references are always valid); it is a
total-function artifact. -/
def CommandInvoker.undo (s : InvokerState) : InvokerState × Bool :=
  match s.history.getLast? with
  | none => (s, false)
  | some i =>
      match s.store[i]? with
      | none => (s, false)
      | some cmd =>
          ({ content := cmd.undo s.content,
             store := s.store,
             history := s.history.dropLast,
             redoStack := s.redoStack ++ [i] }, true)

/-- Embeds `CommandInvoker.redo` (command.py line 114): on empty `_redo_stack`
prints "Cannot redo" and returns (the `false` flag, state unchanged);
otherwise pops the last undone command, calls `execute()` again (which may
mutate the command object: the store is updated in place) and appends it
back onto `_history`. -/
def CommandInvoker.redo (s : InvokerState) : InvokerState × Bool :=
  match s.redoStack.getLast? with
  | none => (s, false)
  | some i =>
      match s.store[i]? with
      | none => (s, false)
      | some cmd =>
          ({ content := (cmd.execute s.content).2,
             store := s.store.set i (cmd.execute s.content).1,
             history := s.history ++ [i],
             redoStack := s.redoStack.dropLast }, true)

/-- Executing a list of freshly constructed commands through the invoker,
in order (`invoker.execute_command(c)` for each `c`). -/
def execList (s : InvokerState) : List Cmd → InvokerState
  | [] => s
  | c :: cs => execList (CommandInvoker.execute_command s c) cs

/-- Calling `invoker.undo()` `n` times. -/
def undoN : Nat → InvokerState → InvokerState
  | 0, s => s
  | n + 1, s => (CommandInvoker.undo (undoN n s)).1

/-- A command is in bounds for a given content: an insert position at most
the length, a delete range `start ≤ end ≤ length`.  (Outside these bounds
Python slicing clamps instead of failing, and the round trip can break.) -/
def Cmd.inBounds : Cmd → List Char → Bool
  | .insert _ p, content => decide (p ≤ content.length)
  | .delete s e _, content => decide (s ≤ e) && decide (e ≤ content.length)

/-- Every command of the list is in bounds for the content current at the
moment it is executed. -/
def SeqOK : List Char → List Cmd → Bool
  | _, [] => true
  | content, c :: cs => c.inBounds content && SeqOK (c.execute content).2 cs

/-!  Embedding of src/Behavoral/state.py. -/

/-- The three concrete `PlayerState` subclasses of state.py. -/
inductive PlayerState where
  | stopped | playing | paused
deriving DecidableEq, Repr

/-- The `play` handlers: `StoppedState.play` and `PausedState.play` call
`player.set_state(PlayingState())`; `PlayingState.play` only prints
"Already playing" and leaves the state unchanged. -/
def PlayerState.play : PlayerState → PlayerState
  | .stopped => .playing
  | .playing => .playing
  | .paused => .playing

/-- The `pause` handlers: `PlayingState.pause` calls
`player.set_state(PausedState())`; the other two only print a warning and
leave the state unchanged. -/
def PlayerState.pause : PlayerState → PlayerState
  | .stopped => .stopped
  | .playing => .paused
  | .paused => .paused

/-- The `stop` handlers: `PlayingState.stop` and `PausedState.stop` call
`player.set_state(StoppedState())`; `StoppedState.stop` only prints
"Already stopped" and leaves the state unchanged. -/
def PlayerState.stop : PlayerState → PlayerState
  | .stopped => .stopped
  | .playing => .stopped
  | .paused => .stopped

/-- The context class `MediaPlayers`: holds the current state. -/
structure MediaPlayers where
  state : PlayerState
deriving DecidableEq, Repr

/-- Embeds `MediaPlayers.__init__` (state.py line 27): initialises `_state` to
`StoppedState()`. -/
def MediaPlayers.init : MediaPlayers := { state := .stopped }

/-- The method `press_play` delegates to the current state's `play` handler, which may
call `set_state`. -/
def MediaPlayers.press_play (m : MediaPlayers) : MediaPlayers :=
  { state := m.state.play }

/-- The method `press_pause` delegates to the current state's `pause` handler. -/
def MediaPlayers.press_pause (m : MediaPlayers) : MediaPlayers :=
  { state := m.state.pause }

/-- The method `press_stop` delegates to the current state's `stop` handler. -/
def MediaPlayers.press_stop (m : MediaPlayers) : MediaPlayers :=
  { state := m.state.stop }

/-!  Embedding of src/Behavioral/memento.py (the caretaker only, for the
stack discipline of `HistoryManager.undo`). -/

/-- A `FormState` memento: a copy of the `FormEditor` field dictionary,
embedded as an association list. -/
def FormState := List (String × String)

/-- Embeds `HistoryManager.undo` (memento.py line 74): with fewer than two saved
mementos it prints "Cannot undo" and returns `None`, leaving `_history`
unchanged; otherwise it pops the snapshot of the current state and returns
`_history[-1]`, the snapshot saved before it.  Returns (returned memento,
history after the call).  Under the length guard the popped list is
nonempty, so the `getLast?` in the second branch is always `some`. -/
def HistoryManager.undo (history : List FormState) :
    Option FormState × List FormState :=
  if history.length < 2 then (none, history)
  else (history.dropLast.getLast?, history.dropLast)

/-- The demo scenario of command.py `__main__`: the editor starts with
`"The quick brown fox."` and a fresh invoker. -/
def demoState0 : InvokerState :=
  { content := "The quick brown fox.".toList, store := [],
    history := [], redoStack := [] }

/-- The call `invoker.execute_command(InsertTextCommand(editor, "lazy ", 4))`. -/
def demoState1 : InvokerState :=
  CommandInvoker.execute_command demoState0 (Cmd.insert "lazy ".toList 4)

/-- The call `invoker.execute_command(DeleteTextCommand(editor, 14, 20))`. -/
def demoState2 : InvokerState :=
  CommandInvoker.execute_command demoState1 (Cmd.delete 14 20 none)

/-- First `invoker.undo()` of the demo. -/
def demoUndo1 : InvokerState := (CommandInvoker.undo demoState2).1

/-- Second `invoker.undo()` of the demo. -/
def demoUndo2 : InvokerState := (CommandInvoker.undo demoUndo1).1

/-- First `invoker.redo()` of the demo. -/
def demoRedo1 : InvokerState := (CommandInvoker.redo demoUndo2).1

/-- Second `invoker.redo()` of the demo. -/
def demoRedo2 : InvokerState := (CommandInvoker.redo demoRedo1).1

/-- A small concrete invoker state (one insert command on the history
stack), used to instantiate universally quantified stack theorems. -/
def sampleHist : InvokerState :=
  { content := "xa".toList, store := [Cmd.insert "x".toList 0],
    history := [0], redoStack := [] }

/-- A small concrete invoker state (one undone insert command on the redo
stack), used to instantiate universally quantified stack theorems. -/
def sampleRedo : InvokerState :=
  { content := "a".toList, store := [Cmd.insert "x".toList 0],
    history := [], redoStack := [0] }

/-!  Helper lemmas. -/

/-- Taking at most the length gives exactly that many characters. -/
theorem length_take_eq (c : List Char) (n : Nat) (h : n ≤ c.length) :
    (c.take n).length = n := by
  simp [List.length_take, Nat.min_eq_left h]

/-- Undoing an in-bounds insert restores the pre-insert content. -/
theorem insert_roundtrip (c t : List Char) (p : Nat) (h : p ≤ c.length) :
    Cmd.undo (.insert t p) (TextEditor.insert_text c t p) = c := by
  have h1 : (c.take p).length = p := length_take_eq c p h
  have h2 : (c.take p ++ t).length = p + t.length := by
    simp [List.length_append, h1]
  have ht : ((c.take p ++ t) ++ c.drop p).take p = c.take p := by
    rw [List.append_assoc]
    exact List.take_left' h1
  have hd : ((c.take p ++ t) ++ c.drop p).drop (p + t.length) = c.drop p :=
    List.drop_left' h2
  simp only [Cmd.undo, TextEditor.insert_text, TextEditor.delete_text]
  rw [ht, hd, List.take_append_drop]

/-- Re-inserting the captured substring of an in-bounds delete at `start`
restores the pre-delete content. -/
theorem delete_capture_undo (c : List Char) (s e : Nat)
    (h1 : s ≤ e) (h2 : e ≤ c.length) :
    TextEditor.insert_text (TextEditor.delete_text c s e).2
      (TextEditor.delete_text c s e).1 s = c := by
  have hs : s ≤ c.length := le_trans h1 h2
  have hts : (c.take s).length = s := length_take_eq c s hs
  have hdd : (c.drop s).drop (e - s) = c.drop e := by
    rw [List.drop_drop]
    congr 1
    omega
  simp only [TextEditor.delete_text, TextEditor.insert_text]
  rw [List.take_left' hts, List.drop_left' hts, List.append_assoc, ← hdd,
    List.take_append_drop, List.take_append_drop]

/-- Undo after execute restores the content, for any in-bounds command,
taking into account that `execute` rewrites the command (capture). -/
theorem cmd_exec_undo (cmd : Cmd) (c : List Char) (h : cmd.inBounds c = true) :
    Cmd.undo (cmd.execute c).1 (cmd.execute c).2 = c := by
  cases cmd with
  | insert t p =>
      simp only [Cmd.inBounds, decide_eq_true_eq] at h
      simp only [Cmd.execute]
      exact insert_roundtrip c t p h
  | delete s e d =>
      simp only [Cmd.inBounds, Bool.and_eq_true, decide_eq_true_eq] at h
      simp only [Cmd.execute, Cmd.undo]
      exact delete_capture_undo c s e h.1 h.2

/-- Calling `undo` on an empty history is the identity with the `false` flag. -/
theorem undo_of_history_nil (s : InvokerState) (h : s.history = []) :
    CommandInvoker.undo s = (s, false) := by
  unfold CommandInvoker.undo
  rw [h]
  rfl

/-- Calling `redo` on an empty redo stack is the identity with the `false` flag. -/
theorem redo_of_redoStack_nil (s : InvokerState) (h : s.redoStack = []) :
    CommandInvoker.redo s = (s, false) := by
  unfold CommandInvoker.redo
  rw [h]
  rfl

/-- Evaluation of `undo` when the top of the history and its store entry are
known. -/
theorem undo_eq_of (s : InvokerState) (H : List Nat) (i : Nat) (cmd : Cmd)
    (hh : s.history = H ++ [i]) (hs : s.store[i]? = some cmd) :
    CommandInvoker.undo s =
      ({ content := cmd.undo s.content, store := s.store,
         history := H, redoStack := s.redoStack ++ [i] }, true) := by
  have hgl : s.history.getLast? = some i := by
    rw [hh]; exact List.getLast?_concat H
  have hdl : s.history.dropLast = H := by
    rw [hh]; exact List.dropLast_concat
  unfold CommandInvoker.undo
  split
  · rename_i heq
    rw [hgl] at heq
    cases heq
  · rename_i j heq
    rw [hgl] at heq
    injection heq with heq
    subst heq
    split
    · rename_i heq2
      rw [hs] at heq2
      cases heq2
    · rename_i cmd' heq2
      rw [hs] at heq2
      injection heq2 with heq2
      subst heq2
      rw [hdl]

/-- Evaluation of `redo` when the top of the redo stack and its store entry
are known. -/
theorem redo_eq_of (s : InvokerState) (R : List Nat) (i : Nat) (cmd : Cmd)
    (hr : s.redoStack = R ++ [i]) (hs : s.store[i]? = some cmd) :
    CommandInvoker.redo s =
      ({ content := (cmd.execute s.content).2,
         store := s.store.set i (cmd.execute s.content).1,
         history := s.history ++ [i], redoStack := R }, true) := by
  have hgl : s.redoStack.getLast? = some i := by
    rw [hr]; exact List.getLast?_concat R
  have hdl : s.redoStack.dropLast = R := by
    rw [hr]; exact List.dropLast_concat
  unfold CommandInvoker.redo
  split
  · rename_i heq
    rw [hgl] at heq
    cases heq
  · rename_i j heq
    rw [hgl] at heq
    injection heq with heq
    subst heq
    split
    · rename_i heq2
      rw [hs] at heq2
      cases heq2
    · rename_i cmd' heq2
      rw [hs] at heq2
      injection heq2 with heq2
      subst heq2
      rw [hdl]

/-- Indexing just past a prefix in a store that only grew by appends. -/
theorem getElem?_concat_append {α : Type} (A : List α) (a : α) (ex : List α) :
    ((A ++ [a]) ++ ex)[A.length]? = some a := by
  have h : A.length < (A ++ [a]).length := by simp
  rw [List.getElem?_append, if_pos h]
  simp

/-- Core of the round-trip: executing an in-bounds sequence through the
invoker and then undoing as many times restores the content and the history,
while the store has only grown by appended commands. -/
theorem roundtrip_core (cs : List Cmd) : ∀ st : InvokerState,
    SeqOK st.content cs = true →
    (undoN cs.length (execList st cs)).content = st.content ∧
    (undoN cs.length (execList st cs)).history = st.history ∧
    ∃ ex, (undoN cs.length (execList st cs)).store = st.store ++ ex := by
  induction cs with
  | nil =>
      intro st _
      exact ⟨rfl, rfl, [], by simp [undoN, execList]⟩
  | cons c cs ih =>
      intro st h
      simp only [SeqOK, Bool.and_eq_true] at h
      obtain ⟨hc, hcs⟩ := h
      obtain ⟨ihc, ihh, ex, ihs⟩ := ih (CommandInvoker.execute_command st c) hcs
      have hhist : (CommandInvoker.execute_command st c).history
          = st.history ++ [st.store.length] := rfl
      have hstore : (CommandInvoker.execute_command st c).store
          = st.store ++ [(c.execute st.content).1] := rfl
      rw [hhist] at ihh
      rw [hstore] at ihs
      have hlook :
          (undoN cs.length (execList (CommandInvoker.execute_command st c) cs)).store[st.store.length]?
            = some (c.execute st.content).1 := by
        rw [ihs]
        exact getElem?_concat_append st.store (c.execute st.content).1 ex
      have hu := undo_eq_of
        (undoN cs.length (execList (CommandInvoker.execute_command st c) cs))
        st.history st.store.length (c.execute st.content).1 ihh hlook
      have hstep : undoN (c :: cs).length (execList st (c :: cs))
          = (CommandInvoker.undo
              (undoN cs.length (execList (CommandInvoker.execute_command st c) cs))).1 := rfl
      rw [hstep, hu]
      refine ⟨?_, rfl, [(c.execute st.content).1] ++ ex, ?_⟩
      · show Cmd.undo (c.execute st.content).1
          (undoN cs.length (execList (CommandInvoker.execute_command st c) cs)).content
            = st.content
        rw [ihc]
        exact cmd_exec_undo c st.content hc
      · show (undoN cs.length (execList (CommandInvoker.execute_command st c) cs)).store
            = st.store ++ ([(c.execute st.content).1] ++ ex)
        rw [ihs, List.append_assoc]

/-!  Claim theorems. -/

/-- C2: the `MediaPlayers` context is initialised in the Stopped state, and
all 9 combinations of state and action follow the transition table of §4.2:
Stopped+play → Playing (pause, stop no-ops); Playing+pause → Paused,
Playing+stop → Stopped (play no-op); Paused+play → Playing, Paused+stop →
Stopped (pause no-op); every no-op leaves the state unchanged. -/
theorem C2_state_table :
    MediaPlayers.init.state = PlayerState.stopped ∧
    (MediaPlayers.press_play { state := .stopped }).state = .playing ∧
    (MediaPlayers.press_pause { state := .stopped }).state = .stopped ∧
    (MediaPlayers.press_stop { state := .stopped }).state = .stopped ∧
    (MediaPlayers.press_play { state := .playing }).state = .playing ∧
    (MediaPlayers.press_pause { state := .playing }).state = .paused ∧
    (MediaPlayers.press_stop { state := .playing }).state = .stopped ∧
    (MediaPlayers.press_play { state := .paused }).state = .playing ∧
    (MediaPlayers.press_pause { state := .paused }).state = .paused ∧
    (MediaPlayers.press_stop { state := .paused }).state = .stopped := by
  decide

/-- C3: `execute_command` clears the redo stack on every call, so after
`execute_command(A)`, `undo()`, `execute_command(B)`, a `redo()` reports
"nothing to redo" (the `false` flag) and changes nothing (the state is
returned unchanged): A cannot be redone. -/
theorem C3_execute_clears_redo :
    (∀ (s : InvokerState) (cmd : Cmd),
      (CommandInvoker.execute_command s cmd).redoStack = []) ∧
    (∀ (s : InvokerState) (A B : Cmd),
      CommandInvoker.redo
          (CommandInvoker.execute_command
            (CommandInvoker.undo (CommandInvoker.execute_command s A)).1 B)
        = (CommandInvoker.execute_command
            (CommandInvoker.undo (CommandInvoker.execute_command s A)).1 B,
           false)) := by
  constructor
  · intro s cmd
    rfl
  · intro s A B
    exact redo_of_redoStack_nil _ rfl

/-- C4: `undo()` on an empty history is a non-mutating no-op signal (the
`false` flag, state returned unchanged), also when repeated any number of
times; symmetrically `redo()` on an empty redo stack is a non-mutating
no-op signal; neither ever fails. -/
theorem C4_empty_stack_noop :
    (∀ (c : List Char) (st : List Cmd) (r : List Nat),
      CommandInvoker.undo { content := c, store := st, history := [], redoStack := r }
        = ({ content := c, store := st, history := [], redoStack := r }, false)) ∧
    (∀ (c : List Char) (st : List Cmd) (r : List Nat) (n : Nat),
      undoN n { content := c, store := st, history := [], redoStack := r }
        = { content := c, store := st, history := [], redoStack := r }) ∧
    (∀ (c : List Char) (st : List Cmd) (hist : List Nat),
      CommandInvoker.redo { content := c, store := st, history := hist, redoStack := [] }
        = ({ content := c, store := st, history := hist, redoStack := [] }, false)) := by
  refine ⟨?_, ?_, ?_⟩
  · intro c st r
    exact undo_of_history_nil _ rfl
  · intro c st r n
    induction n with
    | zero => rfl
    | succ n ihn =>
        show (CommandInvoker.undo (undoN n _)).1 = _
        rw [ihn, undo_of_history_nil _ rfl]
  · intro c st hist
    exact redo_of_redoStack_nil _ rfl

/-- C5 counterexample: calling `undo()` on a `DeleteTextCommand` whose
`execute()` never ran (captured text still `None`) does NOT fail: the guard
`if self._deleted_text is not None` silently skips the re-insertion, and
the editor content `"ab"` is returned unchanged with no error signal of any
kind — exactly the silent recoverable default the claim denies exists. -/
theorem C5_counterexample :
    Cmd.undo (Cmd.delete 0 2 none) "ab".toList = "ab".toList := by
  decide

/-- C5 (amended): calling `undo()` on a `DeleteTextCommand` whose
`execute()` has never run is a silent no-op — the `is not None` guard skips
the re-insertion, the Receiver content is left unchanged and no error is
raised or surfaced. -/
theorem C5_unexecuted_delete_undo_is_silent_noop (s e : Nat) (content : List Char) :
    Cmd.undo (Cmd.delete s e none) content = content := rfl

/-- C8: `HistoryManager.undo` pops the current snapshot before returning
the previous one: with at least two saved mementos it removes the last one
and returns the one saved before it; with fewer than two it returns `None`
and leaves the history unchanged; with exactly two snapshots a single undo
leaves one snapshot behind (so no further undo is possible: the next call
returns `None`). -/
theorem C8_memento_undo_pops_current :
    (∀ (l : List FormState) (a b : FormState),
      HistoryManager.undo (l ++ [a, b]) = (some a, l ++ [a])) ∧
    (∀ a : FormState, HistoryManager.undo [a] = (none, [a])) ∧
    HistoryManager.undo ([] : List FormState) = (none, []) ∧
    (∀ a b : FormState,
      HistoryManager.undo [a, b] = (some a, [a]) ∧
      HistoryManager.undo [a] = (none, [a])) := by
  have key : ∀ (l : List FormState) (a b : FormState),
      HistoryManager.undo (l ++ [a, b]) = (some a, l ++ [a]) := by
    intro l a b
    have hlen : (l ++ [a, b]).length = l.length + 2 := by simp
    have hsplit : l ++ [a, b] = (l ++ [a]) ++ [b] := by simp
    unfold HistoryManager.undo
    rw [if_neg (by rw [hlen]; omega)]
    rw [hsplit, List.dropLast_concat, List.getLast?_concat]
  have single : ∀ a : FormState, HistoryManager.undo [a] = (none, [a]) := by
    intro a
    unfold HistoryManager.undo
    rw [if_pos (by simp)]
  refine ⟨key, single, ?_, ?_⟩
  · unfold HistoryManager.undo
    rw [if_pos (by simp)]
  · intro a b
    refine ⟨?_, single a⟩
    have := key [] a b
    simpa using this

/-- C1 counterexample: the round trip fails for an out-of-bounds command.
Executing `Insert("xy", 5)` on the two-character content `"ab"` appends at
the end (Python slicing clamps position 5 to the length 2), but its
`undo()` deletes the span `[5, 7)`, which is empty in the four-character
result, so the content after execute-then-undo is `"abxy"`, not the
pre-execute `"ab"`. -/
theorem C1_counterexample :
    (CommandInvoker.undo
        (CommandInvoker.execute_command
          { content := "ab".toList, store := [], history := [], redoStack := [] }
          (Cmd.insert "xy".toList 5))).1.content = "abxy".toList ∧
    "abxy".toList ≠ "ab".toList := by
  decide

/-- C1 (amended): for every initial Receiver content and every sequence of
in-bounds commands (each Insert's position at most the content length at
the moment it executes, each Delete with start ≤ end ≤ that length) that
the Invoker executes, undoing them all in reverse (LIFO) order restores
the content exactly; in particular a single in-bounds command's `undo`
immediately after `execute` restores the pre-execute content. -/
theorem C1_roundtrip_inbounds :
    (∀ (st : InvokerState) (cs : List Cmd), SeqOK st.content cs = true →
      (undoN cs.length (execList st cs)).content = st.content) ∧
    (∀ (st : InvokerState) (cmd : Cmd), cmd.inBounds st.content = true →
      (CommandInvoker.undo (CommandInvoker.execute_command st cmd)).1.content
        = st.content) := by
  constructor
  · intro st cs h
    exact (roundtrip_core cs st h).1
  · intro st cmd h
    exact (roundtrip_core [cmd] st (by simp [SeqOK, h])).1

/-- C1 witness: the amended round trip evaluated on `"ab"` with the
in-bounds sequence `[Insert("x", 1), Delete(0, 2)]`. -/
theorem C1_roundtrip_inbounds_witness :
    (SeqOK ("ab".toList) [Cmd.insert "x".toList 1, Cmd.delete 0 2 none] = true ∧
      (undoN 2 (execList
          { content := "ab".toList, store := [], history := [], redoStack := [] }
          [Cmd.insert "x".toList 1, Cmd.delete 0 2 none])).content = "ab".toList) ∧
    (Cmd.inBounds (Cmd.insert "x".toList 1) "ab".toList = true ∧
      (CommandInvoker.undo (CommandInvoker.execute_command
          { content := "ab".toList, store := [], history := [], redoStack := [] }
          (Cmd.insert "x".toList 1))).1.content = "ab".toList) :=
  ⟨⟨by decide, C1_roundtrip_inbounds.1
      { content := "ab".toList, store := [], history := [], redoStack := [] }
      [Cmd.insert "x".toList 1, Cmd.delete 0 2 none] (by decide)⟩,
   ⟨by decide, C1_roundtrip_inbounds.2
      { content := "ab".toList, store := [], history := [], redoStack := [] }
      (Cmd.insert "x".toList 1) (by decide)⟩⟩

/-- C6 counterexample: executing `Delete(0, 5)` on the two-character buffer
`"ab"` — a range far outside the bounds — surfaces no error at all: the
slice clamps, the command silently succeeds, captures the whole buffer
`"ab"` and empties the content. -/
theorem C6_counterexample :
    Cmd.execute (Cmd.delete 0 5 none) "ab".toList
      = (Cmd.delete 0 5 (some "ab".toList), []) := by
  decide

/-- C6 (amended): a Delete whose range reaches past the end of the buffer
succeeds silently instead of surfacing an error: Python slicing clamps the
range, so the command captures exactly the suffix `content[start:]` and
leaves `content[:start]`. -/
theorem C6_out_of_range_delete_clips (content : List Char) (s e : Nat)
    (d : Option (List Char)) (h : content.length < e) :
    Cmd.execute (Cmd.delete s e d) content
      = (Cmd.delete s e (some (content.drop s)), content.take s) := by
  have hd : content.drop e = [] := List.drop_eq_nil_of_le (by omega)
  have ht : (content.drop s).take (e - s) = content.drop s := by
    apply List.take_of_length_le
    rw [List.length_drop]
    omega
  simp only [Cmd.execute, TextEditor.delete_text, hd, ht, List.append_nil]

/-- C6 witness: the amended clipping behaviour evaluated at `Delete(1, 5)`
on `"ab"`. -/
theorem C6_out_of_range_delete_clips_witness :
    "ab".toList.length < 5 ∧
    Cmd.execute (Cmd.delete 1 5 none) "ab".toList
      = (Cmd.delete 1 5 (some ("ab".toList.drop 1)), "ab".toList.take 1) :=
  ⟨by decide, C6_out_of_range_delete_clips "ab".toList 1 5 none (by decide)⟩

/-- C7 counterexample: in the demo scenario the command `Delete(14, 20)`
runs on `"The lazy quick brown fox."` and removes (captures) the substring
`content[14:20] = " brown"` — with a leading space — not `"brown "` as the
claim states (the resulting content is the same either way). -/
theorem C7_counterexample :
    (TextEditor.delete_text "The lazy quick brown fox.".toList 14 20).1
        = " brown".toList ∧
    (TextEditor.delete_text "The lazy quick brown fox.".toList 14 20).1
        ≠ "brown ".toList := by
  decide

/-- C7 (amended): the demo scenario of command.py: starting from
`"The quick brown fox."`, `Insert("lazy ", 4)` yields
`"The lazy quick brown fox."`; `Delete(14, 20)` removes the substring
`" brown"` and yields `"The lazy quick fox."`; one `undo()` restores
`"The lazy quick brown fox."`; a second `undo()` restores
`"The quick brown fox."`; two `redo()` calls replay both commands, ending
at `"The lazy quick fox."`. -/
theorem C7_demo_scenario :
    demoState1.content = "The lazy quick brown fox.".toList ∧
    demoState2.content = "The lazy quick fox.".toList ∧
    (TextEditor.delete_text demoState1.content 14 20).1 = " brown".toList ∧
    demoUndo1.content = "The lazy quick brown fox.".toList ∧
    demoUndo2.content = "The quick brown fox.".toList ∧
    demoRedo1.content = "The lazy quick brown fox.".toList ∧
    demoRedo2.content = "The lazy quick fox.".toList := by
  decide

/-- C9: `insert_text` and `delete_text` are total for all non-negative
index arguments (in the embedding they are total Lean functions), and
indices past the end are clipped by Python slicing: `insert_text(text, p)`
with `p ≥ len(content)` appends `text` at the end, and `delete_text(s, e)`
with `e > len(content)` removes and returns exactly the suffix
`content[s:]`. -/
theorem C9_slicing_clips :
    (∀ (content text : List Char) (p : Nat), content.length ≤ p →
      TextEditor.insert_text content text p = content ++ text) ∧
    (∀ (content : List Char) (s e : Nat), content.length < e →
      TextEditor.delete_text content s e = (content.drop s, content.take s)) := by
  constructor
  · intro content text p h
    simp only [TextEditor.insert_text, List.take_of_length_le h,
      List.drop_eq_nil_of_le h, List.append_nil]
  · intro content s e h
    have hd : content.drop e = [] := List.drop_eq_nil_of_le (by omega)
    have ht : (content.drop s).take (e - s) = content.drop s := by
      apply List.take_of_length_le
      rw [List.length_drop]
      omega
    simp only [TextEditor.delete_text, hd, ht, List.append_nil]

/-- C9 witness: the clipping equations evaluated at `insert_text("c", 5)`
and `delete_text(1, 5)` on `"ab"`. -/
theorem C9_slicing_clips_witness :
    ("ab".toList.length ≤ 5 ∧
      TextEditor.insert_text "ab".toList "c".toList 5 = "ab".toList ++ "c".toList) ∧
    ("ab".toList.length < 5 ∧
      TextEditor.delete_text "ab".toList 1 5 = ("ab".toList.drop 1, "ab".toList.take 1)) :=
  ⟨⟨by decide, C9_slicing_clips.1 "ab".toList "c".toList 5 (by decide)⟩,
   ⟨by decide, C9_slicing_clips.2 "ab".toList 1 5 (by decide)⟩⟩

/-- C10: `undo()` on a non-empty history moves exactly the most recently
executed command from the history to the redo stack, and `redo()` on a
non-empty redo stack moves exactly one command back; the total count
`len(history) + len(redo_stack)` is preserved by every `undo()` and
`redo()` call (no-op calls included); and a successful `undo()`
immediately followed by `redo()` restores both stacks to their prior
contents. -/
theorem C10_stack_discipline :
    (∀ s : InvokerState,
      (CommandInvoker.undo s).1.history.length
          + (CommandInvoker.undo s).1.redoStack.length
        = s.history.length + s.redoStack.length ∧
      (CommandInvoker.redo s).1.history.length
          + (CommandInvoker.redo s).1.redoStack.length
        = s.history.length + s.redoStack.length) ∧
    (∀ (s : InvokerState) (H : List Nat) (i : Nat) (cmd : Cmd),
      s.history = H ++ [i] → s.store[i]? = some cmd →
      (CommandInvoker.undo s).2 = true ∧
      (CommandInvoker.undo s).1.history = H ∧
      (CommandInvoker.undo s).1.redoStack = s.redoStack ++ [i] ∧
      (CommandInvoker.redo (CommandInvoker.undo s).1).1.history = s.history ∧
      (CommandInvoker.redo (CommandInvoker.undo s).1).1.redoStack = s.redoStack) ∧
    (∀ (s : InvokerState) (R : List Nat) (i : Nat) (cmd : Cmd),
      s.redoStack = R ++ [i] → s.store[i]? = some cmd →
      (CommandInvoker.redo s).1.history = s.history ++ [i] ∧
      (CommandInvoker.redo s).1.redoStack = R) := by
  refine ⟨?_, ?_, ?_⟩
  · intro s
    constructor
    · unfold CommandInvoker.undo
      split
      · rfl
      · rename_i i heq
        split
        · rfl
        · rename_i cmd heq2
          have hne : s.history ≠ [] := by
            intro hnil
            rw [hnil] at heq
            cases heq
          have hpos : 0 < s.history.length := List.length_pos.mpr hne
          simp only [List.length_dropLast, List.length_append, List.length_cons,
            List.length_nil]
          omega
    · unfold CommandInvoker.redo
      split
      · rfl
      · rename_i i heq
        split
        · rfl
        · rename_i cmd heq2
          have hne : s.redoStack ≠ [] := by
            intro hnil
            rw [hnil] at heq
            cases heq
          have hpos : 0 < s.redoStack.length := List.length_pos.mpr hne
          simp only [List.length_dropLast, List.length_append, List.length_cons,
            List.length_nil]
          omega
  · intro s H i cmd hh hs
    have hu := undo_eq_of s H i cmd hh hs
    rw [hu]
    have hr := redo_eq_of
      ({ content := cmd.undo s.content, store := s.store,
         history := H, redoStack := s.redoStack ++ [i] })
      s.redoStack i cmd rfl hs
    rw [hr]
    exact ⟨rfl, rfl, rfl, hh.symm, rfl⟩
  · intro s R i cmd hr hs
    rw [redo_eq_of s R i cmd hr hs]
    exact ⟨rfl, rfl⟩

/-- C10 witness: the stack discipline evaluated on a one-command history
(`sampleHist`) and a one-command redo stack (`sampleRedo`). -/
theorem C10_stack_discipline_witness :
    ((CommandInvoker.undo sampleHist).1.history.length
        + (CommandInvoker.undo sampleHist).1.redoStack.length
      = sampleHist.history.length + sampleHist.redoStack.length) ∧
    (sampleHist.history = [] ++ [0] ∧
      sampleHist.store[0]? = some (Cmd.insert "x".toList 0) ∧
      (CommandInvoker.undo sampleHist).2 = true ∧
      (CommandInvoker.undo sampleHist).1.history = [] ∧
      (CommandInvoker.undo sampleHist).1.redoStack = sampleHist.redoStack ++ [0] ∧
      (CommandInvoker.redo (CommandInvoker.undo sampleHist).1).1.history
        = sampleHist.history ∧
      (CommandInvoker.redo (CommandInvoker.undo sampleHist).1).1.redoStack
        = sampleHist.redoStack) ∧
    (sampleRedo.redoStack = [] ++ [0] ∧
      (CommandInvoker.redo sampleRedo).1.history = sampleRedo.history ++ [0] ∧
      (CommandInvoker.redo sampleRedo).1.redoStack = []) := by
  have h2 := C10_stack_discipline.2.1 sampleHist [] 0 (Cmd.insert "x".toList 0)
    (by decide) (by decide)
  have h3 := C10_stack_discipline.2.2 sampleRedo [] 0 (Cmd.insert "x".toList 0)
    (by decide) (by decide)
  exact ⟨(C10_stack_discipline.1 sampleHist).1,
    ⟨by decide, by decide, h2.1, h2.2.1, h2.2.2.1, h2.2.2.2.1, h2.2.2.2.2⟩,
    ⟨by decide, h3.1, h3.2⟩⟩
